import Mathlib

/-!
Shallow embedding of the `ratelimiter` component:
`contracts.py` (Policy, ConsumeResult, QuotaSnapshot),
`store.py` (InMemoryStore), `service.py` (RateLimiterService) and the
relevant parts of `middleware.py` (RateLimiterMiddleware).

Python floats are modelled as rationals (`ℚ`); the positive-integer pydantic
fields (`rate`, `period`, `burst`, `cost`) are `ℕ` with positivity stated as
hypotheses where needed.  Python code that can raise (a `KeyError` on a dict
of the wrong shape) returns `Option`.
-/

/-- `Algorithm = Literal["token_bucket", "leaky_bucket"]` from `contracts.py`. -/
inductive Algorithm where
  | token_bucket : Algorithm
  | leaky_bucket : Algorithm
deriving DecidableEq

/-- `Scope = Literal["ip", "user", "tenant", "global", "custom"]` from `contracts.py`. -/
inductive Scope where
  | ip : Scope
  | user : Scope
  | tenant : Scope
  | global : Scope
  | custom : Scope
deriving DecidableEq

/-- Model of the regex fragment the policies of this component use as
`path_pattern`: an optionally `^`/`$`-anchored literal, or the default
pattern `.*`.  Searching follows Python `re.search` semantics: the pattern
may match at any start position of the subject string. -/
inductive PathPattern where
  | anchoredLit (startAnchor : Bool) (lit : List Char) (endAnchor : Bool) : PathPattern
  | dotStar : PathPattern
deriving DecidableEq

/-- Does the pattern match the subject `s` when the attempt starts at
position `i`?  (`^` restricts to `i = 0`; `$` requires the literal to end at
the end of `s`; `.*` matches at every valid position.) -/
def patMatchAt (pp : PathPattern) (s : List Char) (i : ℕ) : Bool :=
  match pp with
  | .dotStar => decide (i ≤ s.length)
  | .anchoredLit sa lit ea =>
      (!sa || decide (i = 0))
        && decide ((s.drop i).take lit.length = lit)
        && decide (i + lit.length ≤ s.length)
        && (!ea || decide (i + lit.length = s.length))

/-- Python `re.search(pattern, s) is not None`: unanchored search, trying
every start position `0 … s.length`. -/
def reSearch (pp : PathPattern) (s : String) : Bool :=
  (List.range (s.data.length + 1)).any (fun i => patMatchAt pp s.data i)

/-- `Policy` pydantic model from `contracts.py`.  `methods` is stored in the
shape the `normalize_methods` validator leaves it in. -/
structure Policy where
  name : String
  algorithm : Algorithm := .token_bucket
  rate : ℕ
  period : ℕ
  burst : ℕ
  scope : Scope := .ip
  path_pattern : PathPattern := .dotStar
  methods : Option (List String) := none
  cost : ℕ := 1
deriving DecidableEq

/-- The `normalize_methods` field validator from `contracts.py`: upper-cases
each listed method, leaves `None` alone. -/
def normalize_methods (v : Option (List String)) : Option (List String) :=
  v.map (fun ms => ms.map (fun m => m.toUpper))

/-- `Policy.matches(method, path)` from `contracts.py`:
`if self.methods and method.upper() not in self.methods: return False;
return re.search(self.path_pattern, path) is not None`.
(A `None` or empty `methods` list is falsy in Python, so the method filter
is skipped for both.) -/
def Policy.matches (p : Policy) (method path : String) : Bool :=
  match p.methods with
  | none => reSearch p.path_pattern path
  | some ms =>
      if ms ≠ [] ∧ ¬ (method.toUpper ∈ ms) then false
      else reSearch p.path_pattern path

/-- A value stored by the `StateStore`: the Python side stores plain dicts.
`emptyDict` is the `{}` marker `reset` writes; `tbDict`/`lbDict` are the two
bucket-state shapes `{"tokens": _, "last_refill_ts": _}` and
`{"level": _, "last_refill_ts": _}`. -/
inductive Val where
  | emptyDict : Val
  | tbDict (tokens last_refill_ts : ℚ) : Val
  | lbDict (level last_refill_ts : ℚ) : Val
deriving DecidableEq

/-- Python truthiness of a stored dict: `{}` is falsy, non-empty dicts truthy. -/
def Val.truthy : Val → Bool
  | .emptyDict => false
  | _ => true

/-- `state.get("tokens")` on a stored dict. -/
def Val.getTokens : Val → Option ℚ
  | .tbDict t _ => some t
  | _ => none

/-- `state.get("level")` on a stored dict. -/
def Val.getLevel : Val → Option ℚ
  | .lbDict l _ => some l
  | _ => none

/-- `state.get("last_refill_ts")` on a stored dict. -/
def Val.getLast : Val → Option ℚ
  | .tbDict _ ts => some ts
  | .lbDict _ ts => some ts
  | .emptyDict => none

/-- The `InMemoryStore._data` dict, as an insertion-ordered association
list keyed by the storage key. -/
def Store := List (String × Val)
deriving DecidableEq

/-- The empty store (a brand-new `InMemoryStore`). -/
def emptyStore : Store := []

/-- `InMemoryStore.get`: `self._data.get(key)`. -/
def storeGet : Store → String → Option Val
  | [], _ => none
  | (k', v') :: rest, k => if k' = k then some v' else storeGet rest k

/-- `InMemoryStore.set` / the write half of `update`: `self._data[key] = value`
(Python dict semantics: overwrite in place, else append). -/
def storeSet : Store → String → Val → Store
  | [], k, v => [(k, v)]
  | (k', v') :: rest, k, v =>
      if k' = k then (k, v) :: rest else (k', v') :: storeSet rest k v

/-- Python `min(a, b)` on two numbers (kernel-reducible, unlike the
order-instance `min` on `ℚ`). -/
def qmin (a b : ℚ) : ℚ := if a ≤ b then a else b

/-- Python `max(a, b)` on two numbers. -/
def qmax (a b : ℚ) : ℚ := if b ≤ a then a else b

/-- The outcome the `upd` closures in `service.py` produce: the new state to
persist plus the fields written into the `decision` dict. -/
structure UpdOut where
  newState : Val
  allowed : Bool
  remaining : ℚ
  retry_after : Option ℚ
deriving DecidableEq

/-- The body of `upd` in `RateLimiterService._consume_token_bucket`, after the
falsy-state default has been resolved to `tokens0`, `last`:
refill at `rate/period` capped at `burst`, admit iff `tokens >= cost`,
else `retry_after = ceil(deficit / rate_per_sec)`; always persist
`{"tokens": tokens, "last_refill_ts": now}`. -/
def tbMath (p : Policy) (cost : ℕ) (now tokens0 last : ℚ) : UpdOut :=
  let rate_per_sec : ℚ := (p.rate : ℚ) / (p.period : ℚ)
  let elapsed : ℚ := qmax 0 (now - last)
  let tokens : ℚ := qmin ((p.burst : ℚ)) (tokens0 + elapsed * rate_per_sec)
  if (cost : ℚ) ≤ tokens then
    { newState := .tbDict (tokens - (cost : ℚ)) now
      allowed := true
      remaining := tokens - (cost : ℚ)
      retry_after := none }
  else
    { newState := .tbDict tokens now
      allowed := false
      remaining := tokens
      retry_after := some ((⌈((cost : ℚ) - tokens) / rate_per_sec⌉ : ℤ) : ℚ) }

/-- `upd` from `_consume_token_bucket` as a function of the current stored
value: a falsy state (`None` or `{}`) is replaced by the fresh
`{"tokens": float(burst), "last_refill_ts": now}`; a dict without a
`"tokens"` key would raise `KeyError` (`none`). -/
def tokenBucketUpd (p : Policy) (cost : ℕ) (now : ℚ) : Option Val → Option UpdOut
  | none => some (tbMath p cost now ((p.burst : ℚ)) now)
  | some .emptyDict => some (tbMath p cost now ((p.burst : ℚ)) now)
  | some (.tbDict t l) => some (tbMath p cost now t l)
  | some (.lbDict _ _) => none

/-- The body of `upd` in `RateLimiterService._consume_leaky_bucket`, after the
falsy-state default has been resolved to `level0`, `last`: drain at
`rate/period` floored at 0, admit iff `level + cost <= burst`, else
`retry_after` is 0 when `level <= burst - cost` and
`ceil((level - (burst - cost)) / drain_per_sec)` otherwise; always persist
`{"level": level, "last_refill_ts": now}`; `remaining` is
`max(0, burst - level)` for the persisted level. -/
def lbMath (p : Policy) (cost : ℕ) (now level0 last : ℚ) : UpdOut :=
  let drain_per_sec : ℚ := (p.rate : ℚ) / (p.period : ℚ)
  let elapsed : ℚ := qmax 0 (now - last)
  let level : ℚ := qmax 0 (level0 - elapsed * drain_per_sec)
  if level + (cost : ℚ) ≤ (p.burst : ℚ) then
    { newState := .lbDict (level + (cost : ℚ)) now
      allowed := true
      remaining := qmax 0 ((p.burst : ℚ) - (level + (cost : ℚ)))
      retry_after := none }
  else
    { newState := .lbDict level now
      allowed := false
      remaining := qmax 0 ((p.burst : ℚ) - level)
      retry_after := some
        (if level ≤ (p.burst : ℚ) - (cost : ℚ) then 0
         else ((⌈(level - ((p.burst : ℚ) - (cost : ℚ))) / drain_per_sec⌉ : ℤ) : ℚ)) }

/-- `upd` from `_consume_leaky_bucket` as a function of the current stored
value: a falsy state becomes the fresh `{"level": 0.0, "last_refill_ts": now}`;
a dict without a `"level"` key would raise `KeyError` (`none`). -/
def leakyBucketUpd (p : Policy) (cost : ℕ) (now : ℚ) : Option Val → Option UpdOut
  | none => some (lbMath p cost now 0 now)
  | some .emptyDict => some (lbMath p cost now 0 now)
  | some (.lbDict l t) => some (lbMath p cost now l t)
  | some (.tbDict _ _) => none

/-- `RateLimiterService._bucket_key`:
`f"ratelimiter:{policy.algorithm}:{policy.name}:{key}"`. -/
def algoStr : Algorithm → String
  | .token_bucket => "token_bucket"
  | .leaky_bucket => "leaky_bucket"

/-- Storage key derivation (`_bucket_key`). -/
def bucketKey (key : String) (p : Policy) : String :=
  "ratelimiter:" ++ algoStr p.algorithm ++ ":" ++ p.name ++ ":" ++ key

/-- `ConsumeResult` pydantic model from `contracts.py`. -/
structure ConsumeResult where
  allowed : Bool
  remaining : ℚ
  retry_after : Option ℚ := none
  policy : String
  key : String
deriving DecidableEq

/-- `QuotaSnapshot` pydantic model from `contracts.py`. -/
structure QuotaSnapshot where
  key : String
  tokens : Option ℚ := none
  last_refill_ts : Option ℚ := none
  level : Option ℚ := none
  algorithm : Algorithm
deriving DecidableEq

/-- `RateLimiterService.consume`: dispatch on the algorithm, run the `upd`
closure through `InMemoryStore.update` (read-modify-write of the bucket key
under the store lock), and build the `ConsumeResult` from the captured
`decision` dict.  `now` is the value `self._now()` returned for this call. -/
def consume (store : Store) (key : String) (p : Policy) (cost : ℕ) (now : ℚ) :
    Option (ConsumeResult × Store) :=
  let bk := bucketKey key p
  let out :=
    match p.algorithm with
    | .token_bucket => tokenBucketUpd p cost now (storeGet store bk)
    | .leaky_bucket => leakyBucketUpd p cost now (storeGet store bk)
  match out with
  | none => none
  | some o =>
      some ({ allowed := o.allowed
              remaining := o.remaining
              retry_after := o.retry_after
              policy := p.name
              key := key },
            storeSet store bk o.newState)

/-- `RateLimiterService.snapshot`: `store.get` on the bucket key, then a
read-only projection (`state.get(...)` if the state is truthy).  Returned
together with the (unchanged) store to make the frame property explicit. -/
def snapshot (store : Store) (key : String) (p : Policy) :
    QuotaSnapshot × Store :=
  let state := storeGet store (bucketKey key p)
  match p.algorithm with
  | .token_bucket =>
      ({ key := key
         tokens := state.bind (fun s => if s.truthy then s.getTokens else none)
         last_refill_ts := state.bind (fun s => if s.truthy then s.getLast else none)
         algorithm := .token_bucket }, store)
  | .leaky_bucket =>
      ({ key := key
         level := state.bind (fun s => if s.truthy then s.getLevel else none)
         last_refill_ts := state.bind (fun s => if s.truthy then s.getLast else none)
         algorithm := .leaky_bucket }, store)

/-- `RateLimiterService.reset`: `self.store.set(self._bucket_key(key, policy), {})`. -/
def reset (store : Store) (key : String) (p : Policy) : Store :=
  storeSet store (bucketKey key p) .emptyDict

/-- A sequence of `consume` calls for one key and policy; each entry is a
`(now, cost)` pair, `now` being the monotonic-clock reading of that call. -/
def runConsumes (key : String) (p : Policy) : List (ℚ × ℕ) → Store → Option Store
  | [], s => some s
  | c :: rest, s =>
      match consume s key p c.2 c.1 with
      | none => none
      | some (_, s') => runConsumes key p rest s'

/-- Partition key used by the concrete scenarios below. -/
def keyK : String := "k"

/-- The token-bucket policy of the spec's first testable property:
`burst=2, rate=2, period=1`. -/
def polTB2 : Policy :=
  { name := "p1", algorithm := .token_bucket, rate := 2, period := 1, burst := 2 }

/-- First fresh `consume(cost=1)` at clock 0 under `polTB2`. -/
def tbStep1 : Option (ConsumeResult × Store) := consume emptyStore keyK polTB2 1 0

/-- Second `consume(cost=1)` at clock 0 under `polTB2`. -/
def tbStep2 : Option (ConsumeResult × Store) :=
  tbStep1.bind (fun x => consume x.2 keyK polTB2 1 0)

/-- Third `consume(cost=1)` at clock 0 under `polTB2`. -/
def tbStep3 : Option (ConsumeResult × Store) :=
  tbStep2.bind (fun x => consume x.2 keyK polTB2 1 0)


/-- The leaky-bucket policy of the spec's second testable property:
`burst=2, rate=2, period=1`. -/
def polLB2 : Policy :=
  { name := "p2", algorithm := .leaky_bucket, rate := 2, period := 1, burst := 2 }

/-- First fresh `consume(cost=1)` at clock 0 under `polLB2`. -/
def lbStep1 : Option (ConsumeResult × Store) := consume emptyStore keyK polLB2 1 0

/-- Second `consume(cost=1)` at clock 0 under `polLB2`. -/
def lbStep2 : Option (ConsumeResult × Store) :=
  lbStep1.bind (fun x => consume x.2 keyK polLB2 1 0)

/-- Third `consume(cost=1)` at clock 0 under `polLB2`. -/
def lbStep3 : Option (ConsumeResult × Store) :=
  lbStep2.bind (fun x => consume x.2 keyK polLB2 1 0)

/-- Fourth `consume(cost=1)` under `polLB2`, after the clock advanced to 1. -/
def lbStep4 : Option (ConsumeResult × Store) :=
  lbStep3.bind (fun x => consume x.2 keyK polLB2 1 1)

/-- `n` successive `consume` calls with the same key, policy, cost and clock
reading, collecting the results.  Because `InMemoryStore.update` runs each
`upd` closure under the store lock, any interleaving of `n` concurrent
`consume` calls against one key executes exactly this sequence of atomic
read-modify-writes. -/
def consumeN (key : String) (p : Policy) (cost : ℕ) (now : ℚ) :
    ℕ → Store → Option (List ConsumeResult × Store)
  | 0, s => some ([], s)
  | n+1, s =>
      match consume s key p cost now with
      | none => none
      | some (r, s') =>
          (consumeN key p cost now n s').map (fun x => (r :: x.1, x.2))

/-- The documented bound on a persisted bucket state: for a token-bucket
policy the cell holds `tokens ∈ [0, burst]`, for a leaky-bucket policy
`level ∈ [0, burst]` (an absent cell or the `{}` reset marker is fine). -/
def cellInv (p : Policy) : Option Val → Prop
  | none => True
  | some .emptyDict => True
  | some (.tbDict t _) =>
      p.algorithm = .token_bucket ∧ 0 ≤ t ∧ t ≤ (p.burst : ℚ)
  | some (.lbDict l _) =>
      p.algorithm = .leaky_bucket ∧ 0 ≤ l ∧ l ≤ (p.burst : ℚ)

/-- Python `int(x)` on a float: truncation toward zero. -/
def pyInt (q : ℚ) : ℤ := if 0 ≤ q then ⌊q⌋ else ⌈q⌉

/-- Python `x or d` for an optional number: both `None` and `0` are falsy,
so they yield the default `d`. -/
def pyOr (o : Option ℚ) (d : ℚ) : ℚ :=
  match o with
  | none => d
  | some q => if q = 0 then d else q

/-- Lookup of a response header by exact name. -/
def headerGet (hs : List (String × String)) (k : String) : Option String :=
  (hs.find? (fun h => h.1 == k)).map (fun h => h.2)

/-- The 429 response built by the denied branch of
`RateLimiterMiddleware.dispatch`: status, the two JSON body fields, and the
header dict in insertion order. -/
structure DeniedResponse where
  status : ℕ
  bodyError : String
  bodyRetryAfter : ℤ
  headers : List (String × String)
deriving DecidableEq

/-- Denied branch of `RateLimiterMiddleware.dispatch`:
`headers = {"X-RateLimit-Limit": f"{rate};w={period};burst={burst}",
"X-RateLimit-Remaining": str(max(0, int(result.remaining)))}` plus
`headers["Retry-After"] = str(int(result.retry_after or 0))` and
`headers["X-RateLimit-Reset"] = str(int(result.retry_after or policy.period))`,
returned as a 429 `JSONResponse` with content
`{"error": "rate_limited", "retry_after": int(result.retry_after or 0)}`. -/
def deniedResponse (p : Policy) (r : ConsumeResult) : DeniedResponse :=
  { status := 429
    bodyError := "rate_limited"
    bodyRetryAfter := pyInt (pyOr r.retry_after 0)
    headers :=
      [ ("X-RateLimit-Limit",
          toString p.rate ++ ";w=" ++ toString p.period ++ ";burst="
            ++ toString p.burst)
      , ("X-RateLimit-Remaining", toString (max 0 (pyInt r.remaining)))
      , ("Retry-After", toString (pyInt (pyOr r.retry_after 0)))
      , ("X-RateLimit-Reset",
          toString (pyInt (pyOr r.retry_after ((p.period : ℚ))))) ] }

/-- The request context `_build_key` consults: `request.client` (an optional
peer address) and the request headers. -/
structure RequestCtx where
  client : Option String
  headers : List (String × String)
deriving DecidableEq

/-- Python `request.headers.get(name, default)`. -/
def headerLookup (hs : List (String × String)) (k d : String) : String :=
  ((hs.find? (fun h => h.1 == k)).map (fun h => h.2)).getD d

/-- `RateLimiterMiddleware._build_key(request, policy)`: derive the
partition key from the policy scope and the request context.  The `custom`
scope is the source's placeholder branch: it falls back to the client
address but under the `custom:` prefix. -/
def buildKey (user_header tenant_header : String) (ctx : RequestCtx)
    (p : Policy) : String :=
  match p.scope with
  | .ip => "ip:" ++ ctx.client.getD ("unknown")
  | .user => "user:" ++ headerLookup ctx.headers user_header ("anonymous")
  | .tenant => "tenant:" ++ headerLookup ctx.headers tenant_header ("default")
  | .global => "global:*"
  | .custom => "custom:" ++ ctx.client.getD ("unknown")

/-- The pattern `^/echo$` of the spec's policy-matching property. -/
def echoPat : PathPattern := PathPattern.anchoredLit true ("/echo".data) true

/-- The spec's policy-matching example: `methods=["GET"]`,
`path_pattern="^/echo$"` (methods pass through the pydantic
`normalize_methods` validator). -/
def echoPolicy : Policy :=
  { name := "echo", rate := 1, period := 1, burst := 1,
    path_pattern := echoPat, methods := normalize_methods (some ["GET"]) }

/-- A minimal token-bucket policy for witness instantiations. -/
def polW : Policy := { name := "w", rate := 1, period := 1, burst := 1 }

/-- A minimal leaky-bucket policy for witness instantiations. -/
def polWL : Policy :=
  { name := "wl", algorithm := .leaky_bucket, rate := 1, period := 1, burst := 1 }

/-- A token-bucket policy whose per-request cost is 2:
`rate=1, period=1, burst=3, cost=2`. -/
def polTB3 : Policy :=
  { name := "p3", algorithm := .token_bucket, rate := 1, period := 1,
    burst := 3, cost := 2 }

/-- First `consume(cost=2)` under `polTB3` (fresh bucket, clock 0):
allowed, tokens drop from 3 to 1. -/
def c9Step1 : Option (ConsumeResult × Store) := consume emptyStore keyK polTB3 2 0

/-- Second `consume(cost=2)` under `polTB3` at clock 0: denied with
`remaining = 1`. -/
def c9Step2 : Option (ConsumeResult × Store) :=
  c9Step1.bind (fun x => consume x.2 keyK polTB3 2 0)

/-- A request whose client address is known. -/
def ctxA : RequestCtx := { client := some ("1.2.3.4"), headers := [] }

/-- A policy with `scope="custom"` (no custom resolver exists in the source). -/
def polCustom : Policy :=
  { name := "c", rate := 1, period := 1, burst := 1, scope := .custom }

/-- A `ConsumeResult` of the witness scenario: the first fresh
`consume(cost=1)` under `polW` at clock 0. -/
def rW : ConsumeResult :=
  { allowed := true, remaining := 0, retry_after := none, policy := "w", key := "k" }

/-- The store after that witness `consume`. -/
def sW : Store := storeSet emptyStore (bucketKey keyK polW) (Val.tbDict 0 0)

/-- A denied `ConsumeResult` with fractional `remaining`, used to exercise
the denied-response shape. -/
def rDenied : ConsumeResult :=
  { allowed := false, remaining := 1/2, retry_after := some 1, policy := "w", key := "k" }

/-- Writing a key then reading it back returns the written value
(`InMemoryStore` dict semantics). -/
theorem storeGet_storeSet_self (s : Store) (k : String) (v : Val) :
    storeGet (storeSet s k v) k = some v := by
  induction s with
  | nil => simp [storeSet, storeGet]
  | cons hd tl ih =>
      by_cases h : hd.1 = k
      · simp [storeSet, storeGet, h]
      · simp [storeSet, storeGet, h, ih]

/-- Searching a pattern succeeds iff it matches at some start position of
the subject (Python `re.search` is unanchored). -/
theorem reSearch_eq_true_iff (pp : PathPattern) (s : String) :
    reSearch pp s = true
      ↔ ∃ i, i ≤ s.data.length ∧ patMatchAt pp s.data i = true := by
  unfold reSearch
  rw [List.any_eq_true]
  constructor
  · rintro ⟨i, hmem, hp⟩
    exact ⟨i, Nat.lt_succ_iff.mp (List.mem_range.mp hmem), hp⟩
  · rintro ⟨i, hle, hp⟩
    exact ⟨i, List.mem_range.mpr (Nat.lt_succ_iff.mpr hle), hp⟩

/-- C1: token bucket with `burst=2, rate=2, period=1`, fresh state, three
`consume(cost=1)` calls at the same instant: the first is allowed with
`remaining = 1`, the second allowed with `remaining = 0`, the third denied
with `retry_after = 1`. -/
theorem tokenBucket_burst2_three_consumes :
    tbStep1.map (fun x => (x.1.allowed, x.1.remaining)) = some (true, 1)
      ∧ tbStep2.map (fun x => (x.1.allowed, x.1.remaining)) = some (true, 0)
      ∧ tbStep3.map (fun x => (x.1.allowed, x.1.retry_after))
          = some (false, some 1) := by
  refine ⟨?_, ?_, ?_⟩ <;> with_unfolding_all decide

/-- C2: leaky bucket with `burst=2, rate=2, period=1`, fresh state: two
`consume(cost=1)` calls at the same instant are allowed, a third at that
instant is denied, and after the clock advances by 1.0 s a further
`consume(cost=1)` is allowed again (the bucket has drained). -/
theorem leakyBucket_burst2_drain :
    lbStep1.map (fun x => x.1.allowed) = some true
      ∧ lbStep2.map (fun x => x.1.allowed) = some true
      ∧ lbStep3.map (fun x => x.1.allowed) = some false
      ∧ lbStep4.map (fun x => x.1.allowed) = some true := by
  refine ⟨?_, ?_, ?_, ?_⟩ <;> with_unfolding_all decide

/-- C6: `reset` followed by `consume` produces the same `ConsumeResult` and
the same stored bucket state as a first-ever `consume` on a brand-new key:
the `{}` marker written by `reset` is falsy in the `upd` closures, exactly
like an absent state. -/
theorem reset_then_consume_eq_fresh (store : Store) (key : String) (p : Policy)
    (cost : ℕ) (now : ℚ) :
    (consume (reset store key p) key p cost now).map
        (fun x => (x.1, storeGet x.2 (bucketKey key p)))
      = (consume emptyStore key p cost now).map
        (fun x => (x.1, storeGet x.2 (bucketKey key p))) := by
  cases hp : p.algorithm <;>
    simp [consume, hp, reset, storeGet_storeSet_self, tokenBucketUpd,
      leakyBucketUpd, emptyStore, storeGet]

/-- C7: `snapshot` never modifies the store, and two successive `snapshot`
calls with no intervening `consume` or `reset` return identical
`QuotaSnapshot` values (the stored `last_refill_ts` is not advanced). -/
theorem snapshot_readonly_idempotent (store : Store) (key : String) (p : Policy) :
    (snapshot store key p).2 = store
      ∧ (snapshot ((snapshot store key p).2) key p).1
          = (snapshot store key p).1 := by
  cases hp : p.algorithm <;> simp [snapshot, hp]

/-- C10 counterexample: under `scope="custom"` the middleware derives the
key `custom:1.2.3.4`, not the `ip:` key the `ip` derivation would produce
for the same client address. -/
theorem custom_scope_key_not_ip_key :
    buildKey ("X-User-Id") ("X-Tenant-Id") ctxA polCustom = "custom:1.2.3.4"
      ∧ ¬ (buildKey ("X-User-Id") ("X-Tenant-Id") ctxA polCustom
            = "ip:" ++ ctxA.client.getD ("unknown")) := by
  with_unfolding_all decide

/-- C10 amended: under `scope="custom"` (no resolver registered) the
middleware falls back to the client IP address (or the literal `unknown`),
but namespaced as `custom:<addr>`, not `ip:<addr>`. -/
theorem custom_scope_key_uses_client_ip (uh th : String) (ctx : RequestCtx)
    (p : Policy) (h : p.scope = .custom) :
    buildKey uh th ctx p = "custom:" ++ ctx.client.getD ("unknown") := by
  simp [buildKey, h]

/-- Witness for `custom_scope_key_uses_client_ip` at a concrete request. -/
theorem custom_scope_key_uses_client_ip_witness :
    polCustom.scope = .custom
      ∧ buildKey ("X-User-Id") ("X-Tenant-Id") ctxA polCustom
          = "custom:" ++ ctxA.client.getD ("unknown") :=
  ⟨rfl, custom_scope_key_uses_client_ip ("X-User-Id") ("X-Tenant-Id") ctxA
    polCustom rfl⟩

/-- C9 counterexample: a denied request under `polTB3` (`burst=3, cost=2`)
leaves `remaining = 1`, so the middleware's 429 response carries
`X-RateLimit-Remaining: 1`, not `0`. -/
theorem denied_remaining_header_not_zero :
    (c9Step2.map (fun x => (x.1.allowed,
        headerGet (deniedResponse polTB3 x.1).headers ("X-RateLimit-Remaining"))))
      = some (false, some ("1"))
      ∧ (c9Step2.map (fun x =>
          headerGet (deniedResponse polTB3 x.1).headers ("X-RateLimit-Remaining")))
          ≠ some (some ("0")) := by
  constructor <;> with_unfolding_all decide

/-- C8: `Policy.matches` returns false when `methods` is a non-empty list
not containing the upper-cased method; otherwise it returns true iff
`path_pattern` matches at some position of `path` (unanchored search).
Concretely, the `methods=["GET"]`, `path_pattern="^/echo$"` policy matches
neither `POST /echo` nor `GET /other`. -/
theorem policy_matches_spec :
    (∀ p : Policy, ∀ method path : String, ∀ ms : List String,
        p.methods = some ms → ms ≠ [] → method.toUpper ∉ ms →
          p.matches method path = false)
      ∧ (∀ p : Policy, ∀ method path : String,
          (p.methods = none ∨ p.methods = some []
              ∨ ∃ ms, p.methods = some ms ∧ method.toUpper ∈ ms) →
            (p.matches method path = true
              ↔ ∃ i, i ≤ path.data.length
                  ∧ patMatchAt p.path_pattern path.data i = true))
      ∧ echoPolicy.matches ("POST") ("/echo") = false
      ∧ echoPolicy.matches ("GET") ("/other") = false := by
  refine ⟨?_, ?_, ?_, ?_⟩
  · intro p method path ms hms hne hnot
    simp [Policy.matches, hms, hne, hnot]
  · intro p method path h
    rcases h with h | h | ⟨ms, hms, hmem⟩
    · simp [Policy.matches, h, reSearch_eq_true_iff]
    · simp [Policy.matches, h, reSearch_eq_true_iff]
    · simp [Policy.matches, hms, hmem, reSearch_eq_true_iff]
  · with_unfolding_all decide
  · with_unfolding_all decide

/-- Witness for `policy_matches_spec` at concrete methods and paths. -/
theorem policy_matches_spec_witness :
    (echoPolicy.methods = some ["GET"]
        ∧ (["GET"] : List String) ≠ []
        ∧ "POST".toUpper ∉ (["GET"] : List String)
        ∧ echoPolicy.matches ("POST") ("/x") = false)
      ∧ ((echoPolicy.methods = some ["GET"] ∧ "GET".toUpper ∈ (["GET"] : List String))
        ∧ (echoPolicy.matches ("GET") ("/echo") = true
            ↔ ∃ i, i ≤ "/echo".data.length
                ∧ patMatchAt echoPolicy.path_pattern "/echo".data i = true)) := by
  refine ⟨⟨?_, ?_, ?_, ?_⟩, ⟨?_, ?_⟩, ?_⟩
  · with_unfolding_all decide
  · decide
  · with_unfolding_all decide
  · exact policy_matches_spec.1 echoPolicy ("POST") ("/x") ["GET"]
      (by with_unfolding_all decide) (by decide) (by with_unfolding_all decide)
  · with_unfolding_all decide
  · with_unfolding_all decide
  · exact (policy_matches_spec.2.1 echoPolicy ("GET") ("/echo")
      (Or.inr (Or.inr ⟨["GET"], by with_unfolding_all decide,
        by with_unfolding_all decide⟩)))

/-- `a` is a lower bound of `qmax a b`. -/
theorem le_qmax_left (a b : ℚ) : a ≤ qmax a b := by
  unfold qmax
  by_cases h : b ≤ a
  · simp [h]
  · simp [h]
    exact le_of_not_le h

/-- `qmax` of two values below `c` stays below `c`. -/
theorem qmax_le {a b c : ℚ} (h1 : a ≤ c) (h2 : b ≤ c) : qmax a b ≤ c := by
  unfold qmax
  by_cases h : b ≤ a <;> simp [h, h1, h2]

/-- `qmin a b` is at most `a`. -/
theorem qmin_le_left (a b : ℚ) : qmin a b ≤ a := by
  unfold qmin
  by_cases h : a ≤ b
  · simp [h]
  · simp [h]
    exact le_of_not_le h

/-- A common lower bound of `a` and `b` bounds `qmin a b`. -/
theorem le_qmin {a b c : ℚ} (h1 : c ≤ a) (h2 : c ≤ b) : c ≤ qmin a b := by
  unfold qmin
  by_cases h : a ≤ b <;> simp [h, h1, h2]

/-- The token-bucket `upd` persists `tokens` within `[0, burst]` whenever
the incoming tokens were. -/
theorem tbMath_newState_bounds (p : Policy) (cost : ℕ) (now t l : ℚ)
    (h0 : 0 ≤ t) (h1 : t ≤ (p.burst : ℚ)) :
    ∃ t', (tbMath p cost now t l).newState = .tbDict t' now
      ∧ 0 ≤ t' ∧ t' ≤ (p.burst : ℚ) := by
  have hrps : (0:ℚ) ≤ (p.rate : ℚ) / (p.period : ℚ) := by positivity
  have hburst0 : (0:ℚ) ≤ (p.burst : ℚ) := by positivity
  have htok0 : 0 ≤ t + qmax 0 (now - l) * ((p.rate : ℚ) / (p.period : ℚ)) := by
    have := mul_nonneg (le_qmax_left 0 (now - l)) hrps
    linarith
  have hcost0 : (0:ℚ) ≤ (cost : ℚ) := by positivity
  set tk := qmin ((p.burst : ℚ))
      (t + qmax 0 (now - l) * ((p.rate : ℚ) / (p.period : ℚ))) with htk
  have htk0 : 0 ≤ tk := le_qmin hburst0 htok0
  have htk1 : tk ≤ (p.burst : ℚ) := qmin_le_left _ _
  by_cases hc : (cost : ℚ) ≤ tk
  · exact ⟨tk - (cost : ℚ), by simp [tbMath, ← htk, hc],
      by linarith, by linarith⟩
  · exact ⟨tk, by simp [tbMath, ← htk, hc], htk0, htk1⟩

/-- The leaky-bucket `upd` persists `level` within `[0, burst]` whenever
the incoming level was at most `burst`. -/
theorem lbMath_newState_bounds (p : Policy) (cost : ℕ) (now t l : ℚ)
    (h1 : t ≤ (p.burst : ℚ)) :
    ∃ l', (lbMath p cost now t l).newState = .lbDict l' now
      ∧ 0 ≤ l' ∧ l' ≤ (p.burst : ℚ) := by
  have hrps : (0:ℚ) ≤ (p.rate : ℚ) / (p.period : ℚ) := by positivity
  have hburst0 : (0:ℚ) ≤ (p.burst : ℚ) := by positivity
  have hcost0 : (0:ℚ) ≤ (cost : ℚ) := by positivity
  have hmul : 0 ≤ qmax 0 (now - l) * ((p.rate : ℚ) / (p.period : ℚ)) :=
    mul_nonneg (le_qmax_left 0 (now - l)) hrps
  set lv := qmax 0 (t - qmax 0 (now - l) * ((p.rate : ℚ) / (p.period : ℚ))) with hlv
  have hlv0 : 0 ≤ lv := le_qmax_left 0 _
  have hlv1 : lv ≤ (p.burst : ℚ) := qmax_le hburst0 (by linarith)
  by_cases hc : lv + (cost : ℚ) ≤ (p.burst : ℚ)
  · exact ⟨lv + (cost : ℚ), by simp [lbMath, ← hlv, hc], by linarith, hc⟩
  · exact ⟨lv, by simp [lbMath, ← hlv, hc], hlv0, hlv1⟩

/-- Unfolding equation for `consume` when the algorithm dispatch yields a
`UpdOut`. -/
theorem consume_eq_some (s : Store) (key : String) (p : Policy) (cost : ℕ)
    (now : ℚ) (o : UpdOut)
    (ho : (match p.algorithm with
           | .token_bucket => tokenBucketUpd p cost now (storeGet s (bucketKey key p))
           | .leaky_bucket => leakyBucketUpd p cost now (storeGet s (bucketKey key p)))
          = some o) :
    consume s key p cost now = some
      ({ allowed := o.allowed, remaining := o.remaining,
         retry_after := o.retry_after, policy := p.name, key := key },
       storeSet s (bucketKey key p) o.newState) := by
  simp only [consume]
  rw [ho]

/-- One `consume` call keeps the bucket cell within the documented bounds
(and never hits the `KeyError` case from a well-shaped cell). -/
theorem consume_preserves_cellInv (s : Store) (key : String) (p : Policy)
    (cost : ℕ) (now : ℚ)
    (hinv : cellInv p (storeGet s (bucketKey key p))) :
    ∃ r s', consume s key p cost now = some (r, s')
      ∧ cellInv p (storeGet s' (bucketKey key p)) := by
  cases hp : p.algorithm
  · cases hst : storeGet s (bucketKey key p) with
    | none =>
        obtain ⟨t', hns, ht0, ht1⟩ := tbMath_newState_bounds p cost now
          ((p.burst : ℚ)) now (by positivity) (le_refl _)
        refine ⟨_, _, consume_eq_some s key p cost now
          (tbMath p cost now ((p.burst : ℚ)) now)
          (by simp [hp, hst, tokenBucketUpd]), ?_⟩
        rw [storeGet_storeSet_self, hns]
        exact ⟨hp, ht0, ht1⟩
    | some v =>
        cases v with
        | emptyDict =>
            obtain ⟨t', hns, ht0, ht1⟩ := tbMath_newState_bounds p cost now
              ((p.burst : ℚ)) now (by positivity) (le_refl _)
            refine ⟨_, _, consume_eq_some s key p cost now
              (tbMath p cost now ((p.burst : ℚ)) now)
              (by simp [hp, hst, tokenBucketUpd]), ?_⟩
            rw [storeGet_storeSet_self, hns]
            exact ⟨hp, ht0, ht1⟩
        | tbDict t ts =>
            rw [hst] at hinv
            have hb : p.algorithm = .token_bucket ∧ 0 ≤ t ∧ t ≤ (p.burst : ℚ) := by
              simpa [cellInv] using hinv
            obtain ⟨t', hns, ht0, ht1⟩ :=
              tbMath_newState_bounds p cost now t ts hb.2.1 hb.2.2
            refine ⟨_, _, consume_eq_some s key p cost now (tbMath p cost now t ts)
              (by simp [hp, hst, tokenBucketUpd]), ?_⟩
            rw [storeGet_storeSet_self, hns]
            exact ⟨hp, ht0, ht1⟩
        | lbDict t ts =>
            rw [hst] at hinv
            have hb : p.algorithm = .leaky_bucket ∧ 0 ≤ t ∧ t ≤ (p.burst : ℚ) := by
              simpa [cellInv] using hinv
            exact absurd (hb.1.symm.trans hp) (by decide)
  · cases hst : storeGet s (bucketKey key p) with
    | none =>
        obtain ⟨l', hns, hl0, hl1⟩ := lbMath_newState_bounds p cost now 0 now
          (by positivity)
        refine ⟨_, _, consume_eq_some s key p cost now (lbMath p cost now 0 now)
          (by simp [hp, hst, leakyBucketUpd]), ?_⟩
        rw [storeGet_storeSet_self, hns]
        exact ⟨hp, hl0, hl1⟩
    | some v =>
        cases v with
        | emptyDict =>
            obtain ⟨l', hns, hl0, hl1⟩ := lbMath_newState_bounds p cost now 0 now
              (by positivity)
            refine ⟨_, _, consume_eq_some s key p cost now (lbMath p cost now 0 now)
              (by simp [hp, hst, leakyBucketUpd]), ?_⟩
            rw [storeGet_storeSet_self, hns]
            exact ⟨hp, hl0, hl1⟩
        | tbDict t ts =>
            rw [hst] at hinv
            have hb : p.algorithm = .token_bucket ∧ 0 ≤ t ∧ t ≤ (p.burst : ℚ) := by
              simpa [cellInv] using hinv
            exact absurd (hb.1.symm.trans hp) (by decide)
        | lbDict t ts =>
            rw [hst] at hinv
            have hb : p.algorithm = .leaky_bucket ∧ 0 ≤ t ∧ t ≤ (p.burst : ℚ) := by
              simpa [cellInv] using hinv
            obtain ⟨l', hns, hl0, hl1⟩ :=
              lbMath_newState_bounds p cost now t ts hb.2.2
            refine ⟨_, _, consume_eq_some s key p cost now (lbMath p cost now t ts)
              (by simp [hp, hst, leakyBucketUpd]), ?_⟩
            rw [storeGet_storeSet_self, hns]
            exact ⟨hp, hl0, hl1⟩

/-- Any sequence of `consume` calls preserves the bucket-cell bounds. -/
theorem runConsumes_cellInv (key : String) (p : Policy) (calls : List (ℚ × ℕ)) :
    ∀ s : Store, cellInv p (storeGet s (bucketKey key p)) →
      ∃ s', runConsumes key p calls s = some s'
        ∧ cellInv p (storeGet s' (bucketKey key p)) := by
  induction calls with
  | nil => exact fun s h => ⟨s, rfl, h⟩
  | cons c rest ih =>
      intro s h
      obtain ⟨r, s1, hc, hinv1⟩ := consume_preserves_cellInv s key p c.2 c.1 h
      obtain ⟨s', hrun, hinv'⟩ := ih s1 hinv1
      exact ⟨s', by simp [runConsumes, hc, hrun], hinv'⟩

/-- C3: for every policy with `rate > 0`, `period > 0`, `burst > 0`, every
sequence of `consume` calls with positive costs and a non-decreasing clock,
started from a fresh store, succeeds and leaves the persisted state in
bounds after each call (every prefix): `tokens ∈ [0, burst]` for
`token_bucket` and `level ∈ [0, burst]` for `leaky_bucket`. -/
theorem consume_state_bounds (key : String) (p : Policy) (calls : List (ℚ × ℕ))
    (hrate : 0 < p.rate) (hperiod : 0 < p.period) (hburst : 0 < p.burst)
    (hcost : ∀ c ∈ calls, 0 < c.2)
    (hmono : List.Chain' (· ≤ ·) (calls.map Prod.fst)) :
    ∀ n : ℕ, ∃ s', runConsumes key p (calls.take n) emptyStore = some s'
      ∧ cellInv p (storeGet s' (bucketKey key p)) := by
  intro n
  exact runConsumes_cellInv key p (calls.take n) emptyStore
    (by simp [emptyStore, storeGet, cellInv])

/-- `qmax a b = b` when `a ≤ b`. -/
theorem qmax_eq_right {a b : ℚ} (h : a ≤ b) : qmax a b = b := by
  unfold qmax
  by_cases h2 : b ≤ a
  · simp [h2]
    linarith
  · simp [h2]

/-- `qmin a b = b` when `b ≤ a`. -/
theorem qmin_eq_right {a b : ℚ} (h : b ≤ a) : qmin a b = b := by
  unfold qmin
  by_cases h2 : a ≤ b
  · simp [h2]
    linarith
  · simp [h2]

/-- A successful `consume` draws its `allowed` and `retry_after` fields
from the matching algorithm math on some loaded state. -/
theorem consume_result_fields (s : Store) (key : String) (p : Policy)
    (cost : ℕ) (now : ℚ) (r : ConsumeResult) (s' : Store)
    (h : consume s key p cost now = some (r, s')) :
    ∃ t l, (p.algorithm = .token_bucket
              ∧ r.allowed = (tbMath p cost now t l).allowed
              ∧ r.retry_after = (tbMath p cost now t l).retry_after)
        ∨ (p.algorithm = .leaky_bucket
              ∧ r.allowed = (lbMath p cost now t l).allowed
              ∧ r.retry_after = (lbMath p cost now t l).retry_after) := by
  cases hp : p.algorithm
  · cases hst : storeGet s (bucketKey key p) with
    | none =>
        rw [consume_eq_some s key p cost now (tbMath p cost now ((p.burst : ℚ)) now)
          (by simp [hp, hst, tokenBucketUpd])] at h
        simp only [Option.some.injEq, Prod.mk.injEq] at h
        obtain ⟨hr, _⟩ := h
        subst hr
        exact ⟨_, _, Or.inl ⟨rfl, rfl, rfl⟩⟩
    | some v =>
        cases v with
        | emptyDict =>
            rw [consume_eq_some s key p cost now (tbMath p cost now ((p.burst : ℚ)) now)
              (by simp [hp, hst, tokenBucketUpd])] at h
            simp only [Option.some.injEq, Prod.mk.injEq] at h
            obtain ⟨hr, _⟩ := h
            subst hr
            exact ⟨_, _, Or.inl ⟨rfl, rfl, rfl⟩⟩
        | tbDict t ts =>
            rw [consume_eq_some s key p cost now (tbMath p cost now t ts)
              (by simp [hp, hst, tokenBucketUpd])] at h
            simp only [Option.some.injEq, Prod.mk.injEq] at h
            obtain ⟨hr, _⟩ := h
            subst hr
            exact ⟨_, _, Or.inl ⟨rfl, rfl, rfl⟩⟩
        | lbDict t ts =>
            simp [consume, hp, hst, tokenBucketUpd] at h
  · cases hst : storeGet s (bucketKey key p) with
    | none =>
        rw [consume_eq_some s key p cost now (lbMath p cost now 0 now)
          (by simp [hp, hst, leakyBucketUpd])] at h
        simp only [Option.some.injEq, Prod.mk.injEq] at h
        obtain ⟨hr, _⟩ := h
        subst hr
        exact ⟨_, _, Or.inr ⟨rfl, rfl, rfl⟩⟩
    | some v =>
        cases v with
        | emptyDict =>
            rw [consume_eq_some s key p cost now (lbMath p cost now 0 now)
              (by simp [hp, hst, leakyBucketUpd])] at h
            simp only [Option.some.injEq, Prod.mk.injEq] at h
            obtain ⟨hr, _⟩ := h
            subst hr
            exact ⟨_, _, Or.inr ⟨rfl, rfl, rfl⟩⟩
        | tbDict t ts =>
            simp [consume, hp, hst, leakyBucketUpd] at h
        | lbDict t ts =>
            rw [consume_eq_some s key p cost now (lbMath p cost now t ts)
              (by simp [hp, hst, leakyBucketUpd])] at h
            simp only [Option.some.injEq, Prod.mk.injEq] at h
            obtain ⟨hr, _⟩ := h
            subst hr
            exact ⟨_, _, Or.inr ⟨rfl, rfl, rfl⟩⟩

/-- Token-bucket `upd`: no `retry_after` when allowed; on denial the
`retry_after` is an integer of at least 1. -/
theorem tbMath_retry (p : Policy) (cost : ℕ) (now t l : ℚ)
    (hrate : 0 < p.rate) (hperiod : 0 < p.period) :
    ((tbMath p cost now t l).allowed = true →
        (tbMath p cost now t l).retry_after = none)
      ∧ ((tbMath p cost now t l).allowed = false →
        ∃ n : ℤ, 1 ≤ n ∧ (tbMath p cost now t l).retry_after = some ((n : ℚ))) := by
  have hr : (0:ℚ) < (p.rate : ℚ) / (p.period : ℚ) :=
    div_pos (by exact_mod_cast hrate) (by exact_mod_cast hperiod)
  set tk := qmin ((p.burst : ℚ))
      (t + qmax 0 (now - l) * ((p.rate : ℚ) / (p.period : ℚ))) with htk
  by_cases hc : (cost : ℚ) ≤ tk
  · constructor
    · intro _
      simp [tbMath, ← htk, hc]
    · intro hfa
      simp [tbMath, ← htk, hc] at hfa
  · constructor
    · intro hta
      simp [tbMath, ← htk, hc] at hta
    · intro _
      refine ⟨⌈((cost : ℚ) - tk) / ((p.rate : ℚ) / (p.period : ℚ))⌉, ?_,
        by simp [tbMath, ← htk, hc]⟩
      have hpos : 0 < ((cost : ℚ) - tk) / ((p.rate : ℚ) / (p.period : ℚ)) :=
        div_pos (by linarith [lt_of_not_le hc]) hr
      have h1 := Int.ceil_pos.mpr hpos
      omega

/-- Leaky-bucket `upd`: no `retry_after` when allowed; on denial the
`retry_after` is an integer of at least 1 (the `retry_after = 0` branch is
unreachable for a denied request). -/
theorem lbMath_retry (p : Policy) (cost : ℕ) (now t l : ℚ)
    (hrate : 0 < p.rate) (hperiod : 0 < p.period) :
    ((lbMath p cost now t l).allowed = true →
        (lbMath p cost now t l).retry_after = none)
      ∧ ((lbMath p cost now t l).allowed = false →
        ∃ n : ℤ, 1 ≤ n ∧ (lbMath p cost now t l).retry_after = some ((n : ℚ))) := by
  have hr : (0:ℚ) < (p.rate : ℚ) / (p.period : ℚ) :=
    div_pos (by exact_mod_cast hrate) (by exact_mod_cast hperiod)
  set lv := qmax 0 (t - qmax 0 (now - l) * ((p.rate : ℚ) / (p.period : ℚ))) with hlv
  by_cases hc : lv + (cost : ℚ) ≤ (p.burst : ℚ)
  · constructor
    · intro _
      simp [lbMath, ← hlv, hc]
    · intro hfa
      simp [lbMath, ← hlv, hc] at hfa
  · constructor
    · intro hta
      simp [lbMath, ← hlv, hc] at hta
    · intro _
      have hgt : (p.burst : ℚ) - (cost : ℚ) < lv := by
        have := lt_of_not_le hc
        linarith
      have hif : ¬ (lv ≤ (p.burst : ℚ) - (cost : ℚ)) := not_le.mpr hgt
      refine ⟨⌈(lv - ((p.burst : ℚ) - (cost : ℚ))) / ((p.rate : ℚ) / (p.period : ℚ))⌉,
        ?_, by simp [lbMath, ← hlv, hc, hif]⟩
      have hpos : 0 < (lv - ((p.burst : ℚ) - (cost : ℚ))) / ((p.rate : ℚ) / (p.period : ℚ)) :=
        div_pos (by linarith) hr
      have h1 := Int.ceil_pos.mpr hpos
      omega

/-- C4: for every `consume` call (either algorithm, `cost > 0`), the
result has `retry_after = None` when allowed, and when denied `retry_after`
is a whole number of seconds at least 1 — in particular the leaky-bucket
`retry_after = 0` case never occurs for a denied request. -/
theorem retry_after_iff_denied (s : Store) (key : String) (p : Policy)
    (cost : ℕ) (now : ℚ) (r : ConsumeResult) (s' : Store)
    (hrate : 0 < p.rate) (hperiod : 0 < p.period) (hcost : 0 < cost)
    (h : consume s key p cost now = some (r, s')) :
    (r.allowed = true → r.retry_after = none)
      ∧ (r.allowed = false →
          ∃ n : ℤ, 1 ≤ n ∧ r.retry_after = some ((n : ℚ))) := by
  obtain ⟨t, l, hd | hd⟩ := consume_result_fields s key p cost now r s' h
  · obtain ⟨halg, ha, hret⟩ := hd
    have hm := tbMath_retry p cost now t l hrate hperiod
    exact ⟨fun h1 => by rw [hret]; exact hm.1 (ha.symm.trans h1),
           fun h1 => by
             obtain ⟨n, hn, he⟩ := hm.2 (ha.symm.trans h1)
             exact ⟨n, hn, by rw [hret, he]⟩⟩
  · obtain ⟨halg, ha, hret⟩ := hd
    have hm := lbMath_retry p cost now t l hrate hperiod
    exact ⟨fun h1 => by rw [hret]; exact hm.1 (ha.symm.trans h1),
           fun h1 => by
             obtain ⟨n, hn, he⟩ := hm.2 (ha.symm.trans h1)
             exact ⟨n, hn, by rw [hret, he]⟩⟩

/-- A `cost=1` token-bucket step at an unchanged clock simply decrements
the tokens, staying allowed while `k ≥ 1`. -/
theorem tbMath_one_sameclock (p : Policy) (now : ℚ) (k : ℕ)
    (hk : 0 < k) (hkb : k ≤ p.burst) :
    tbMath p 1 now ((k : ℚ)) now =
      { newState := .tbDict (((k - 1 : ℕ) : ℚ)) now, allowed := true,
        remaining := ((k - 1 : ℕ) : ℚ), retry_after := none } := by
  have h0 : qmax 0 (now - now) = 0 := by simp [qmax]
  have hcast : ((k : ℚ)) ≤ ((p.burst : ℚ)) := by exact_mod_cast hkb
  have h1 : (1:ℚ) ≤ ((k : ℚ)) := by exact_mod_cast hk
  have hsub : (((k - 1 : ℕ)) : ℚ) = ((k : ℚ)) - 1 := by
    rw [Nat.cast_sub hk, Nat.cast_one]
  simp only [tbMath, Nat.cast_one]
  rw [h0, zero_mul, add_zero, qmin_eq_right hcast, if_pos h1, hsub]

/-- A `cost=1` leaky-bucket step at an unchanged clock simply increments
the level, staying allowed while it fits under `burst`. -/
theorem lbMath_one_sameclock (p : Policy) (now : ℚ) (l : ℕ)
    (hl : l + 1 ≤ p.burst) :
    lbMath p 1 now ((l : ℚ)) now =
      { newState := .lbDict (((l + 1 : ℕ)) : ℚ) now, allowed := true,
        remaining := qmax 0 ((p.burst : ℚ) - (((l + 1 : ℕ)) : ℚ)),
        retry_after := none } := by
  have h0 : qmax 0 (now - now) = 0 := by simp [qmax]
  have hlv : qmax 0 ((l : ℚ)) = ((l : ℚ)) := qmax_eq_right (by positivity)
  have hcond : ((l : ℚ)) + 1 ≤ ((p.burst : ℚ)) := by exact_mod_cast hl
  have hadd : (((l + 1 : ℕ)) : ℚ) = ((l : ℚ)) + 1 := by push_cast; ring
  simp only [lbMath, Nat.cast_one]
  rw [h0, zero_mul, sub_zero, hlv, if_pos hcond, hadd]

/-- From a token-bucket cell holding `m` tokens, `m` same-clock
`consume(cost=1)` calls are all allowed and drain the cell to 0. -/
theorem consumeN_tb_allowed (key : String) (p : Policy) (now : ℚ)
    (hp : p.algorithm = .token_bucket) :
    ∀ m : ℕ, ∀ s : Store, m ≤ p.burst →
      storeGet s (bucketKey key p) = some (.tbDict ((m : ℚ)) now) →
      ∃ rs s', consumeN key p 1 now m s = some (rs, s')
        ∧ rs.length = m ∧ (∀ r ∈ rs, r.allowed = true)
        ∧ storeGet s' (bucketKey key p) = some (.tbDict 0 now) := by
  intro m
  induction m with
  | zero =>
      intro s _ hst
      exact ⟨[], s, rfl, rfl, by simp, by simpa using hst⟩
  | succ m ih =>
      intro s hm hst
      have hmath := tbMath_one_sameclock p now (m + 1) (Nat.succ_pos m) hm
      have hcons := consume_eq_some s key p 1 now (tbMath p 1 now (((m + 1 : ℕ)) : ℚ) now)
        (by simp [hp, hst, tokenBucketUpd])
      rw [hmath] at hcons
      have hsub : (m + 1 - 1 : ℕ) = m := rfl
      rw [hsub] at hcons
      obtain ⟨rs, s', hN, hlen, hall, hfinal⟩ :=
        ih (storeSet s (bucketKey key p) (.tbDict ((m : ℚ)) now))
          (Nat.le_of_succ_le hm) (storeGet_storeSet_self s (bucketKey key p) _)
      refine ⟨{ allowed := true, remaining := ((m : ℚ)), retry_after := none,
                policy := p.name, key := key } :: rs, s',
          ?_, by simp [hlen], ?_, hfinal⟩
      · simp [consumeN, hcons, hN]
      · intro r hr
        rcases List.mem_cons.mp hr with h | h
        · rw [h]
        · exact hall r h

/-- From a leaky-bucket cell at level `l` with `l + m ≤ burst`, `m`
same-clock `consume(cost=1)` calls are all allowed and fill the cell to
`l + m`. -/
theorem consumeN_lb_allowed (key : String) (p : Policy) (now : ℚ)
    (hp : p.algorithm = .leaky_bucket) :
    ∀ m : ℕ, ∀ l : ℕ, ∀ s : Store, l + m ≤ p.burst →
      storeGet s (bucketKey key p) = some (.lbDict ((l : ℚ)) now) →
      ∃ rs s', consumeN key p 1 now m s = some (rs, s')
        ∧ rs.length = m ∧ (∀ r ∈ rs, r.allowed = true)
        ∧ storeGet s' (bucketKey key p) = some (.lbDict (((l + m : ℕ)) : ℚ) now) := by
  intro m
  induction m with
  | zero =>
      intro l s _ hst
      exact ⟨[], s, rfl, rfl, by simp, by simpa using hst⟩
  | succ m ih =>
      intro l s hm hst
      have hmath := lbMath_one_sameclock p now l (by omega)
      have hcons := consume_eq_some s key p 1 now (lbMath p 1 now ((l : ℚ)) now)
        (by simp [hp, hst, leakyBucketUpd])
      rw [hmath] at hcons
      obtain ⟨rs, s', hN, hlen, hall, hfinal⟩ :=
        ih (l + 1) (storeSet s (bucketKey key p) (.lbDict (((l + 1 : ℕ)) : ℚ) now))
          (by omega) (storeGet_storeSet_self s (bucketKey key p) _)
      have hcast : ((l + 1 + m : ℕ)) = ((l + (m + 1) : ℕ)) := by omega
      rw [hcast] at hfinal
      refine ⟨{ allowed := true,
                remaining := qmax 0 ((p.burst : ℚ) - (((l + 1 : ℕ)) : ℚ)),
                retry_after := none, policy := p.name, key := key } :: rs, s',
          ?_, by simp [hlen], ?_, hfinal⟩
      · push_cast at hN
        simp [consumeN, hcons, hN]
      · intro r hr
        rcases List.mem_cons.mp hr with h | h
        · rw [h]
        · exact hall r h

/-- C5: `N` `consume(cost=1)` calls against a fresh bucket of `burst = N`
(either algorithm, no clock advance) all succeed: exactly `N` allowed
results, none denied, and the final stored state has `remaining = 0`
(tokens drained to 0 / level filled to `burst`).  `InMemoryStore.update`
runs each `upd` under the store lock, so every interleaving of `N`
concurrent calls executes exactly this serialized sequence — no update is
lost. -/
theorem concurrent_fresh_burstN (key : String) (now : ℚ) (N : ℕ)
    (p q : Policy) (hN : 0 < N)
    (hpAlg : p.algorithm = .token_bucket) (hpB : p.burst = N)
    (hqAlg : q.algorithm = .leaky_bucket) (hqB : q.burst = N) :
    (∃ rs s', consumeN key p 1 now N emptyStore = some (rs, s')
        ∧ rs.length = N ∧ (∀ r ∈ rs, r.allowed = true)
        ∧ storeGet s' (bucketKey key p) = some (.tbDict 0 now))
      ∧ (∃ rs s', consumeN key q 1 now N emptyStore = some (rs, s')
        ∧ rs.length = N ∧ (∀ r ∈ rs, r.allowed = true)
        ∧ storeGet s' (bucketKey key q) = some (.lbDict ((N : ℚ)) now)) := by
  obtain ⟨m, rfl⟩ : ∃ m, N = m + 1 := ⟨N - 1, by omega⟩
  constructor
  · have hmath := tbMath_one_sameclock p now (m + 1) (Nat.succ_pos m) (by omega)
    have hcons := consume_eq_some emptyStore key p 1 now
      (tbMath p 1 now (((m + 1 : ℕ)) : ℚ) now)
      (by simp [hpAlg, tokenBucketUpd, emptyStore, storeGet, hpB])
    rw [hmath] at hcons
    have hsub : (m + 1 - 1 : ℕ) = m := rfl
    rw [hsub] at hcons
    obtain ⟨rs, s', hN2, hlen, hall, hfinal⟩ :=
      consumeN_tb_allowed key p now hpAlg m
        (storeSet emptyStore (bucketKey key p) (.tbDict ((m : ℚ)) now))
        (by omega) (storeGet_storeSet_self _ _ _)
    refine ⟨{ allowed := true, remaining := ((m : ℚ)), retry_after := none,
              policy := p.name, key := key } :: rs, s',
        ?_, by simp [hlen], ?_, hfinal⟩
    · simp [consumeN, hcons, hN2]
    · intro r hr
      rcases List.mem_cons.mp hr with h | h
      · rw [h]
      · exact hall r h
  · have hmath := lbMath_one_sameclock q now 0 (by omega)
    have hcons := consume_eq_some emptyStore key q 1 now
      (lbMath q 1 now (((0 : ℕ)) : ℚ) now)
      (by simp [hqAlg, leakyBucketUpd, emptyStore, storeGet])
    rw [hmath] at hcons
    norm_num at hcons
    obtain ⟨rs, s', hN2, hlen, hall, hfinal⟩ :=
      consumeN_lb_allowed key q now hqAlg m 1
        (storeSet emptyStore (bucketKey key q) (.lbDict ((1 : ℚ)) now))
        (by omega) (by rw [storeGet_storeSet_self]; norm_num)
    have hcast : (1 + m : ℕ) = m + 1 := by omega
    rw [hcast] at hfinal
    refine ⟨{ allowed := true, remaining := qmax 0 ((q.burst : ℚ) - 1),
              retry_after := none, policy := q.name, key := key } :: rs, s',
        ?_, by simp [hlen], ?_, hfinal⟩
    · simp [consumeN, hcons, hN2]
    · intro r hr
      rcases List.mem_cons.mp hr with h | h
      · rw [h]
      · exact hall r h

/-- C9 (amended): for every denied result the middleware responds 429 with
body `{"error": "rate_limited", "retry_after": int(retry_after or 0)}` and
headers including `Retry-After` and `X-RateLimit-Remaining`, whose value is
`str(max(0, int(remaining)))` — equal to `"0"` whenever `remaining < 1`,
but not for every denied request. -/
theorem denied_response_shape (p : Policy) (r : ConsumeResult)
    (hd : r.allowed = false) (h0 : 0 ≤ r.remaining) :
    (deniedResponse p r).status = 429
      ∧ (deniedResponse p r).bodyError = "rate_limited"
      ∧ (deniedResponse p r).bodyRetryAfter = pyInt (pyOr r.retry_after 0)
      ∧ headerGet (deniedResponse p r).headers ("Retry-After")
          = some (toString (pyInt (pyOr r.retry_after 0)))
      ∧ headerGet (deniedResponse p r).headers ("X-RateLimit-Remaining")
          = some (toString (max 0 (pyInt r.remaining)))
      ∧ (r.remaining < 1 →
          headerGet (deniedResponse p r).headers ("X-RateLimit-Remaining")
            = some ("0")) := by
  refine ⟨rfl, rfl, rfl, ?_, ?_, ?_⟩
  · simp [deniedResponse, headerGet]
  · simp [deniedResponse, headerGet]
  · intro hlt
    have h1 : pyInt r.remaining = 0 := by
      unfold pyInt
      rw [if_pos h0]
      exact Int.floor_eq_zero_iff.mpr ⟨h0, hlt⟩
    simp [deniedResponse, headerGet, h1]
    rfl

/-- Witness for `denied_response_shape` at a concrete denied result. -/
theorem denied_response_shape_witness :
    rDenied.allowed = false ∧ 0 ≤ rDenied.remaining
      ∧ ((deniedResponse polW rDenied).status = 429
        ∧ (deniedResponse polW rDenied).bodyError = "rate_limited"
        ∧ (deniedResponse polW rDenied).bodyRetryAfter = pyInt (pyOr rDenied.retry_after 0)
        ∧ headerGet (deniedResponse polW rDenied).headers ("Retry-After")
            = some (toString (pyInt (pyOr rDenied.retry_after 0)))
        ∧ headerGet (deniedResponse polW rDenied).headers ("X-RateLimit-Remaining")
            = some (toString (max 0 (pyInt rDenied.remaining)))
        ∧ (rDenied.remaining < 1 →
            headerGet (deniedResponse polW rDenied).headers ("X-RateLimit-Remaining")
              = some ("0"))) :=
  ⟨rfl, by with_unfolding_all decide,
   denied_response_shape polW rDenied rfl (by with_unfolding_all decide)⟩

/-- Witness for `consume_state_bounds` at a concrete policy and call list. -/
theorem consume_state_bounds_witness :
    0 < polW.rate ∧ 0 < polW.period ∧ 0 < polW.burst
      ∧ (∀ c ∈ ([((0:ℚ), 1)] : List (ℚ × ℕ)), 0 < c.2)
      ∧ List.Chain' (fun a b => a ≤ b) (([((0:ℚ), 1)] : List (ℚ × ℕ)).map Prod.fst)
      ∧ ∀ n : ℕ, ∃ s', runConsumes keyK polW (([((0:ℚ), 1)] : List (ℚ × ℕ)).take n)
            emptyStore = some s'
          ∧ cellInv polW (storeGet s' (bucketKey keyK polW)) := by
  have hcost : ∀ c ∈ ([((0:ℚ), 1)] : List (ℚ × ℕ)), 0 < c.2 := by simp
  have hchain : List.Chain' (fun a b => a ≤ b)
      (([((0:ℚ), 1)] : List (ℚ × ℕ)).map Prod.fst) := by simp
  exact ⟨by decide, by decide, by decide, hcost, hchain,
    consume_state_bounds keyK polW ([((0:ℚ), 1)]) (by decide) (by decide) (by decide)
      hcost hchain⟩

/-- Witness for `retry_after_iff_denied` at a concrete fresh consume. -/
theorem retry_after_iff_denied_witness :
    0 < polW.rate ∧ 0 < polW.period ∧ 0 < 1
      ∧ consume emptyStore keyK polW 1 0 = some (rW, sW)
      ∧ ((rW.allowed = true → rW.retry_after = none)
        ∧ (rW.allowed = false →
            ∃ n : ℤ, 1 ≤ n ∧ rW.retry_after = some ((n : ℚ)))) := by
  have hEq : consume emptyStore keyK polW 1 0 = some (rW, sW) := by
    with_unfolding_all decide
  exact ⟨by decide, by decide, by decide, hEq,
    retry_after_iff_denied emptyStore keyK polW 1 0 rW sW (by decide) (by decide)
      (by decide) hEq⟩

/-- Witness for `concurrent_fresh_burstN` at `N = 1`. -/
theorem concurrent_fresh_burstN_witness :
    0 < 1 ∧ polW.algorithm = .token_bucket ∧ polW.burst = 1
      ∧ polWL.algorithm = .leaky_bucket ∧ polWL.burst = 1
      ∧ ((∃ rs s', consumeN keyK polW 1 0 1 emptyStore = some (rs, s')
          ∧ rs.length = 1 ∧ (∀ r ∈ rs, r.allowed = true)
          ∧ storeGet s' (bucketKey keyK polW) = some (.tbDict 0 0))
        ∧ (∃ rs s', consumeN keyK polWL 1 0 1 emptyStore = some (rs, s')
          ∧ rs.length = 1 ∧ (∀ r ∈ rs, r.allowed = true)
          ∧ storeGet s' (bucketKey keyK polWL) = some (.lbDict (((1 : ℕ)) : ℚ) 0))) :=
  ⟨by decide, rfl, rfl, rfl, rfl,
   concurrent_fresh_burstN keyK 0 1 polW polWL (by decide) rfl rfl rfl rfl⟩
